import Mathlib

/-!
Verification development for the Santa20 local-contest core: the pairwise
rating update, the agent-pairing scheduler, and the trajectory
reconstruction algorithm of a finished match record.

The trajectory code (`Game.steps` in `app/models.py`) works on a numpy
float32 vector of thresholds; we idealise that arithmetic over ℚ (the decay
constant 0.97 = 97/100 is rational, so every quantity the algorithm
manipulates stays rational).  The rating engine (`find_new_scores` in
`app/management/commands/run_games.py`) uses `10 ** (r / 400)`; we idealise
its float arithmetic over ℝ.  Python exceptions that abort a computation are
modelled with `Option` (`none` = the computation raised).
-/

namespace Santa20

/-- `GameResult` from `app/models.py`. -/
inductive GameResult where
  | LEFT_WON
  | RIGHT_WON
  | DRAW
  | UNKNOWN
deriving DecidableEq, Repr

/-- `DECAY_RATE = 0.97` from `app/models.py`. -/
def DECAY_RATE : ℚ := 97 / 100

/-- `SAMPLE_RESOLUTION = 100` from `app/models.py`. -/
def SAMPLE_RESOLUTION : ℚ := 100

/-- One entry of the list built by `Game.steps` (the per-step dict). -/
structure StepRecord where
  left_action : Nat
  right_action : Nat
  left_reward : Int
  right_reward : Int
  total_left_reward : Int
  total_right_reward : Int
  left_expected_reward : ℚ
  right_expected_reward : ℚ
  thresholds : List ℚ
deriving DecidableEq, Repr, Inhabited

/-- The five stored arrays of a finished `Game` row (`app/models.py`). -/
structure GameRecord where
  initial_thresholds : List ℚ
  left_actions : List Nat
  right_actions : List Nat
  left_rewards : List Int
  right_rewards : List Int
deriving DecidableEq, Repr

/-- `th[a] *= DECAY_RATE`: in-place decay of one arm.  Out-of-range `a`
cannot happen at call sites (the preceding reads already checked it). -/
def decayArm (th : List ℚ) (a : Nat) : List ℚ :=
  th.set a (th.getD a 0 * DECAY_RATE)

/-- The loop body of `Game.steps`: `th` is the mutable threshold vector,
`tl`/`tr` the running totals, and the list argument the zipped
`(left_action, right_action), (left_reward, right_reward)` rows.  Reading
`th[la]` or `th[ra]` out of range raises in numpy, aborting the whole
reconstruction: `none` here. -/
def stepsAux (th : List ℚ) (tl tr : Int) :
    List ((Nat × Nat) × (Int × Int)) → Option (List StepRecord)
  | [] => some []
  | ((la, ra), (lr0, rr0)) :: rest =>
    match th.get? la, th.get? ra with
    | some thla, some thra =>
      let th2 := decayArm (decayArm th la) ra
      let lr := lr0 - tl
      let rr := rr0 - tr
      (stepsAux th2 (tl + lr) (tr + rr) rest).map
        (fun tail =>
          { left_action := la
            right_action := ra
            left_reward := lr
            right_reward := rr
            total_left_reward := tl + lr
            total_right_reward := tr + rr
            left_expected_reward := thla / SAMPLE_RESOLUTION
            right_expected_reward := thra / SAMPLE_RESOLUTION
            thresholds := th2 } :: tail)
    | _, _ => none

/-- Python's four-way `zip` over the stored arrays: it stops at the
shortest input. -/
def zipped (g : GameRecord) : List ((Nat × Nat) × (Int × Int)) :=
  (g.left_actions.zip g.right_actions).zip (g.left_rewards.zip g.right_rewards)

/-- `Game.steps` (`app/models.py`, the `cached_property`): reconstruct the
trajectory of a finished match from the stored arrays. -/
def Game.steps (g : GameRecord) : Option (List StepRecord) :=
  stepsAux g.initial_thresholds 0 0 (zipped g)

/-- `Game.thresholds_at_the_end` (`app/models.py`): fold over the
reconstructed steps, keeping the last snapshot, starting from
`initial_thresholds`. -/
def Game.thresholds_at_the_end (g : GameRecord) : Option (List ℚ) :=
  (Game.steps g).map
    (fun steps => steps.foldl (fun _ d => d.thresholds) g.initial_thresholds)

/-- The result-determination fragment of `run_game`
(`app/management/commands/run_games.py`, lines 75-82): compare the final
entries of the cumulative reward arrays.  `left_rewards[-1]` raises on an
empty array: `none`. -/
def run_game_result (g : GameRecord) : Option GameResult :=
  match g.left_rewards.getLast?, g.right_rewards.getLast? with
  | some l, some r =>
    some (if l > r then GameResult.LEFT_WON
          else if l < r then GameResult.RIGHT_WON
          else GameResult.DRAW)
  | _, _ => none

/-- An `Agent` row, restricted to the fields the scheduler looks at
(`app/models.py`): primary key, the `enabled` flag, and whether the `file`
field is non-null. -/
structure PyAgent where
  id : Nat
  enabled : Bool
  hasFile : Bool
deriving DecidableEq, Repr

/-- The id list built in `Command.handle`
(`app/management/commands/run_games.py`):
`Agent.objects.filter(file__isnull=False).values_list("id", flat=True)`.
Only the `file` field is consulted. -/
def agent_id_list (agents : List PyAgent) : List Nat :=
  (agents.filter (fun a => a.hasFile)).map (fun a => a.id)

/-- The guard in `Command.handle`: the command aborts with an error message
when fewer than two ids were collected. -/
def insufficient_agents (agents : List PyAgent) : Bool :=
  decide ((agent_id_list agents).length < 2)

/-- `choice_agents_for_game`: `np.random.choice(agent_id_list, size=2,
replace=False)`.  The randomness is external; we model the draw by the two
distinct positions `i ≠ j` numpy picked. -/
def choice_agents_for_game (l : List Nat) (i j : Fin l.length) : Nat × Nat :=
  (l.get i, l.get j)

/-- Modelled from the spec: the eligible pool the spec describes for
`selectPair` — agents that are `enabled` AND have an uploaded executable.
Compared against `agent_id_list`, which the code actually builds. -/
def spec_eligible_ids (agents : List PyAgent) : List Nat :=
  (agents.filter (fun a => a.enabled && a.hasFile)).map (fun a => a.id)

/-- `expected_scores` (`app/management/commands/run_games.py`):
`qa = 10 ** (a / 400)`, `qb = 10 ** (b / 400)`, returns
`(qa / (qa + qb), qb / (qa + qb))`. -/
noncomputable def expected_scores (a b : ℝ) : ℝ × ℝ :=
  let qa : ℝ := (10 : ℝ) ^ (a / 400)
  let qb : ℝ := (10 : ℝ) ^ (b / 400)
  let s := qa + qb
  (qa / s, qb / s)

/-- `find_new_scores` (`app/management/commands/run_games.py`): the Elo-style
update.  `raise ValueError` on an unknown result is modelled by `none`. -/
noncomputable def find_new_scores (ra rb : ℝ) (result : GameResult) (k : ℝ) :
    Option (ℝ × ℝ) :=
  let es := expected_scores ra rb
  match result with
  | GameResult.LEFT_WON => some (ra + k * (1 - es.1), rb + k * (0 - es.2))
  | GameResult.RIGHT_WON => some (ra + k * (0 - es.1), rb + k * (1 - es.2))
  | GameResult.DRAW =>
    some (ra + k * ((1 / 2 : ℝ) - es.1), rb + k * ((1 / 2 : ℝ) - es.2))
  | GameResult.UNKNOWN => none

/-! ### Structural lemmas about the reconstruction loop -/

/-- Inversion for a successful `stepsAux` on a cons cell: both reads were in
range, the tail succeeded from the doubly-decayed vector, and the head record
is fully determined. -/
lemma stepsAux_cons_some {th : List ℚ} {tl tr : Int} {la ra : Nat}
    {lr0 rr0 : Int} {rest : List ((Nat × Nat) × (Int × Int))}
    {L : List StepRecord}
    (h : stepsAux th tl tr (((la, ra), (lr0, rr0)) :: rest) = some L) :
    ∃ thla thra tail,
      th.get? la = some thla ∧ th.get? ra = some thra ∧
      stepsAux (decayArm (decayArm th la) ra) lr0 rr0 rest = some tail ∧
      L = { left_action := la
            right_action := ra
            left_reward := lr0 - tl
            right_reward := rr0 - tr
            total_left_reward := lr0
            total_right_reward := rr0
            left_expected_reward := thla / SAMPLE_RESOLUTION
            right_expected_reward := thra / SAMPLE_RESOLUTION
            thresholds := decayArm (decayArm th la) ra } :: tail := by
  unfold stepsAux at h
  cases h1 : th.get? la with
  | none => rw [h1] at h; exact absurd h (by cases th.get? ra <;> simp)
  | some thla =>
    cases h2 : th.get? ra with
    | none => rw [h1, h2] at h; exact absurd h (by simp)
    | some thra =>
      rw [h1, h2] at h
      simp only [Option.map_eq_some'] at h
      obtain ⟨tail, htail, hL⟩ := h
      have e1 : tl + (lr0 - tl) = lr0 := by omega
      have e2 : tr + (rr0 - tr) = rr0 := by omega
      rw [e1, e2] at htail
      exact ⟨thla, thra, tail, rfl, rfl, htail,
        by rw [← hL]; simp only [e1, e2]⟩

/-- A successful reconstruction has one output record per zipped input row. -/
lemma stepsAux_length {xs : List ((Nat × Nat) × (Int × Int))} :
    ∀ {th : List ℚ} {tl tr : Int} {L : List StepRecord},
      stepsAux th tl tr xs = some L → L.length = xs.length := by
  induction xs with
  | nil => intro th tl tr L h; cases h; rfl
  | cons x rest ih =>
    intro th tl tr L h
    obtain ⟨⟨la, ra⟩, lr0, rr0⟩ := x
    obtain ⟨thla, thra, tail, -, -, htail, hL⟩ := stepsAux_cons_some h
    subst hL
    simp [ih htail]

/-- Truncating the zipped input truncates the output: the loop is a single
forward pass, so a prefix of the input determines the same prefix of the
output. -/
lemma stepsAux_take {xs : List ((Nat × Nat) × (Int × Int))} :
    ∀ {th : List ℚ} {tl tr : Int} {L : List StepRecord} {n : Nat},
      stepsAux th tl tr xs = some L →
      stepsAux th tl tr (xs.take n) = some (L.take n) := by
  induction xs with
  | nil => intro th tl tr L n h; cases h; simp [stepsAux]
  | cons x rest ih =>
    intro th tl tr L n h
    obtain ⟨⟨la, ra⟩, lr0, rr0⟩ := x
    obtain ⟨thla, thra, tail, h1, h2, htail, hL⟩ := stepsAux_cons_some h
    subst hL
    cases n with
    | zero => simp [stepsAux]
    | succ n =>
      simp only [List.take_succ_cons]
      unfold stepsAux
      rw [h1, h2]
      dsimp only
      have e1 : tl + (lr0 - tl) = lr0 := by omega
      have e2 : tr + (rr0 - tr) = rr0 := by omega
      rw [e1, e2, ih htail]
      simp

/-- Every record a successful reconstruction emits carries in-range action
indices, and its snapshot has one entry per arm. -/
lemma stepsAux_mem_inrange {xs : List ((Nat × Nat) × (Int × Int))} :
    ∀ {th : List ℚ} {tl tr : Int} {L : List StepRecord},
      stepsAux th tl tr xs = some L →
      ∀ d ∈ L, d.left_action < th.length ∧ d.right_action < th.length ∧
        d.thresholds.length = th.length := by
  induction xs with
  | nil => intro th tl tr L h; cases h; intro d hd; simp at hd
  | cons x rest ih =>
    intro th tl tr L h
    obtain ⟨⟨la, ra⟩, lr0, rr0⟩ := x
    obtain ⟨thla, thra, tail, h1, h2, htail, hL⟩ := stepsAux_cons_some h
    subst hL
    have hlen : (decayArm (decayArm th la) ra).length = th.length := by
      simp [decayArm]
    intro d hd
    rcases List.mem_cons.mp hd with hd | hd
    · subst hd
      refine ⟨?_, ?_, by simpa using hlen⟩
      · exact (List.get?_eq_some.mp h1).1
      · exact (List.get?_eq_some.mp h2).1
    · have := ih htail d hd
      rwa [hlen] at this

/-- The running totals a successful reconstruction reports are exactly the
cumulative reward inputs. -/
lemma stepsAux_totals {xs : List ((Nat × Nat) × (Int × Int))} :
    ∀ {th : List ℚ} {tl tr : Int} {L : List StepRecord},
      stepsAux th tl tr xs = some L →
      ∀ i, i < L.length →
        (L.getD i default).total_left_reward = (xs.getD i default).2.1 ∧
        (L.getD i default).total_right_reward = (xs.getD i default).2.2 := by
  induction xs with
  | nil => intro th tl tr L h; cases h; intro i hi; simp at hi
  | cons x rest ih =>
    intro th tl tr L h
    obtain ⟨⟨la, ra⟩, lr0, rr0⟩ := x
    obtain ⟨thla, thra, tail, h1, h2, htail, hL⟩ := stepsAux_cons_some h
    subst hL
    intro i hi
    cases i with
    | zero => simp
    | succ i => simpa using ih htail i (by simpa using hi)

/-- The per-step reward deltas are successive differences of the cumulative
input arrays (relative to the incoming totals for the first row). -/
lemma stepsAux_deltas {xs : List ((Nat × Nat) × (Int × Int))} :
    ∀ {th : List ℚ} {tl tr : Int} {L : List StepRecord},
      stepsAux th tl tr xs = some L →
      ∀ i, i < L.length →
        (L.getD i default).left_reward =
          (xs.getD i default).2.1 -
            (if i = 0 then tl else (xs.getD (i - 1) default).2.1) ∧
        (L.getD i default).right_reward =
          (xs.getD i default).2.2 -
            (if i = 0 then tr else (xs.getD (i - 1) default).2.2) := by
  induction xs with
  | nil => intro th tl tr L h; cases h; intro i hi; simp at hi
  | cons x rest ih =>
    intro th tl tr L h
    obtain ⟨⟨la, ra⟩, lr0, rr0⟩ := x
    obtain ⟨thla, thra, tail, h1, h2, htail, hL⟩ := stepsAux_cons_some h
    subst hL
    intro i hi
    cases i with
    | zero => simp
    | succ i =>
      have H := ih htail i (by simpa using hi)
      cases i with
      | zero => simpa using H
      | succ j => simpa using H

/-- Telescoping: the incoming total plus the sum of the emitted deltas equals
the last emitted total (or the incoming total when nothing was emitted). -/
lemma stepsAux_sum {xs : List ((Nat × Nat) × (Int × Int))} :
    ∀ {th : List ℚ} {tl tr : Int} {L : List StepRecord},
      stepsAux th tl tr xs = some L →
      tl + (L.map (fun d => d.left_reward)).sum =
        ((L.getLast?).map (fun d => d.total_left_reward)).getD tl ∧
      tr + (L.map (fun d => d.right_reward)).sum =
        ((L.getLast?).map (fun d => d.total_right_reward)).getD tr := by
  induction xs with
  | nil => intro th tl tr L h; cases h; simp
  | cons x rest ih =>
    intro th tl tr L h
    obtain ⟨⟨la, ra⟩, lr0, rr0⟩ := x
    obtain ⟨thla, thra, tail, h1, h2, htail, hL⟩ := stepsAux_cons_some h
    subst hL
    have H := ih htail
    cases tail with
    | nil => simp
    | cons t ts =>
      cases hlast : (t :: ts).getLast? with
      | none => simp at hlast
      | some dlast =>
        rw [hlast] at H
        simp only [List.map_cons, List.sum_cons, List.getLast?_cons_cons, hlast,
          Option.map_some', Option.getD_some] at H ⊢
        omega

/-- The per-step expected rewards are read from the threshold vector as it
stood before the step's decay (the previous snapshot, or the initial vector
at step 0), and the step's snapshot is that vector with the left arm decayed
and then the right arm decayed. -/
lemma stepsAux_snapshot {xs : List ((Nat × Nat) × (Int × Int))} :
    ∀ {th : List ℚ} {tl tr : Int} {L : List StepRecord},
      stepsAux th tl tr xs = some L →
      ∀ i, i < L.length →
        (L.getD i default).left_expected_reward =
          ((if i = 0 then th else (L.getD (i - 1) default).thresholds).getD
            (L.getD i default).left_action 0) / SAMPLE_RESOLUTION ∧
        (L.getD i default).right_expected_reward =
          ((if i = 0 then th else (L.getD (i - 1) default).thresholds).getD
            (L.getD i default).right_action 0) / SAMPLE_RESOLUTION ∧
        (L.getD i default).thresholds =
          decayArm
            (decayArm (if i = 0 then th else (L.getD (i - 1) default).thresholds)
              (L.getD i default).left_action)
            (L.getD i default).right_action := by
  induction xs with
  | nil => intro th tl tr L h; cases h; intro i hi; simp at hi
  | cons x rest ih =>
    intro th tl tr L h
    obtain ⟨⟨la, ra⟩, lr0, rr0⟩ := x
    obtain ⟨thla, thra, tail, h1, h2, htail, hL⟩ := stepsAux_cons_some h
    subst hL
    intro i hi
    cases i with
    | zero =>
      have e1 : th[la]?.getD 0 = thla := by
        simp [← List.get?_eq_getElem?, h1]
      have e2 : th[ra]?.getD 0 = thra := by
        simp [← List.get?_eq_getElem?, h2]
      simp [e1, e2]
    | succ i =>
      have H := ih htail i (by simpa using hi)
      cases i with
      | zero => simpa using H
      | succ j => simpa using H

/-- Componentwise read of a zipped list. -/
lemma zip_getD {α β : Type} [Inhabited α] [Inhabited β] :
    ∀ (l1 : List α) (l2 : List β) (i : Nat), i < l1.length → i < l2.length →
      (l1.zip l2).getD i default = (l1.getD i default, l2.getD i default) := by
  intro l1
  induction l1 with
  | nil => intro l2 i h1 h2; simp at h1
  | cons a l1 ih =>
    intro l2 i h1 h2
    cases l2 with
    | nil => simp at h2
    | cons b l2 =>
      cases i with
      | zero => simp
      | succ i =>
        simpa using ih l2 i (by simpa using h1) (by simpa using h2)

/-- An index below the zipped length is below each of the four array
lengths. -/
lemma lt_length_of_lt_zipped {g : GameRecord} {i : Nat}
    (hi : i < (zipped g).length) :
    i < g.left_actions.length ∧ i < g.right_actions.length ∧
      i < g.left_rewards.length ∧ i < g.right_rewards.length := by
  simp only [zipped, List.length_zip, lt_inf_iff] at hi
  exact ⟨hi.1.1, hi.1.2, hi.2.1, hi.2.2⟩

/-- Reading one zipped row gives the four array entries at that index. -/
lemma zipped_getD (g : GameRecord) (i : Nat) (hi : i < (zipped g).length) :
    (zipped g).getD i default =
      ((g.left_actions.getD i 0, g.right_actions.getD i 0),
        (g.left_rewards.getD i 0, g.right_rewards.getD i 0)) := by
  obtain ⟨h1, h2, h3, h4⟩ := lt_length_of_lt_zipped hi
  rw [zipped, zip_getD _ _ i (by simp [List.length_zip, lt_inf_iff]; omega)
      (by simp [List.length_zip, lt_inf_iff]; omega),
    zip_getD _ _ i h1 h2, zip_getD _ _ i h3 h4]
  rfl

/-- Folding `fun _ d => d.thresholds` keeps the last snapshot, or the start
value when the list is empty. -/
lemma foldl_last_thresholds (L : List StepRecord) :
    ∀ init : List ℚ, L.foldl (fun _ d => d.thresholds) init =
      ((L.getLast?).map (fun d => d.thresholds)).getD init := by
  induction L with
  | nil => intro init; rfl
  | cons d L ih =>
    intro init
    rw [List.foldl_cons, ih]
    cases L with
    | nil => rfl
    | cons t ts =>
      rw [List.getLast?_cons_cons]
      cases hlast : (t :: ts).getLast? with
      | none => simp at hlast
      | some dl => simp [hlast]

/-- The stored arrays of a record truncated to its first `n` steps; the
initial thresholds are untouched. -/
def truncateRecord (g : GameRecord) (n : Nat) : GameRecord :=
  { initial_thresholds := g.initial_thresholds
    left_actions := g.left_actions.take n
    right_actions := g.right_actions.take n
    left_rewards := g.left_rewards.take n
    right_rewards := g.right_rewards.take n }

/-! ### Claim theorems -/

/-- The record of the spec's shared-arm double-decay example:
`initialThresholds = [50, 50]`, one step in which both agents pull arm 0. -/
def c1rec : GameRecord :=
  { initial_thresholds := [50, 50]
    left_actions := [0]
    right_actions := [0]
    left_rewards := [1]
    right_rewards := [1] }

/-- The trajectory `Game.steps` reconstructs for `c1rec`. -/
def c1steps : List StepRecord :=
  [{ left_action := 0
     right_action := 0
     left_reward := 1
     right_reward := 1
     total_left_reward := 1
     total_right_reward := 1
     left_expected_reward := 1 / 2
     right_expected_reward := 1 / 2
     thresholds := [50 * (97 / 100) * (97 / 100), 50] }]

/-- `Game.steps` on the shared-arm example evaluates to `c1steps`. -/
lemma c1rec_steps_eval : Game.steps c1rec = some c1steps := by
  norm_num [Game.steps, stepsAux, zipped, c1rec, c1steps, decayArm,
    DECAY_RATE, SAMPLE_RESOLUTION, List.get?]

/-- C1: at every reconstructed step `i` the expected rewards are
`thresholds[action] / 100` read from the vector as it stood before step
`i`'s decay (the previous snapshot, or the initial thresholds at `i = 0`),
and the step's snapshot is that vector with the left arm decayed by `0.97`
and then the right arm decayed by `0.97` independently — so a shared arm
decays twice; in particular for `initialThresholds = [50, 50]` and a single
step with both actions `0`, the step-0 snapshot for arm 0 is
`50 * 0.97 * 0.97`. -/
theorem steps_read_before_decay_double (g : GameRecord) (L : List StepRecord)
    (hL : Game.steps g = some L) (i : Nat) (hi : i < L.length) :
    ((L.getD i default).left_expected_reward =
        ((if i = 0 then g.initial_thresholds
          else (L.getD (i - 1) default).thresholds).getD
          (L.getD i default).left_action 0) / SAMPLE_RESOLUTION
      ∧ (L.getD i default).right_expected_reward =
        ((if i = 0 then g.initial_thresholds
          else (L.getD (i - 1) default).thresholds).getD
          (L.getD i default).right_action 0) / SAMPLE_RESOLUTION
      ∧ (L.getD i default).thresholds =
        decayArm
          (decayArm
            (if i = 0 then g.initial_thresholds
             else (L.getD (i - 1) default).thresholds)
            (L.getD i default).left_action)
          (L.getD i default).right_action)
    ∧ Game.steps c1rec = some c1steps
    ∧ (c1steps.getD 0 default).thresholds.getD 0 0 =
        50 * (97 / 100) * (97 / 100) := by
  refine ⟨stepsAux_snapshot hL i hi, c1rec_steps_eval, ?_⟩
  norm_num [c1steps]

/-- Witness for the claim C1 theorem at the shared-arm example itself:
record `c1rec`, trajectory `c1steps`, step `0`. -/
theorem steps_read_before_decay_double_witness :
    ((c1steps.getD 0 default).left_expected_reward =
        ((if 0 = 0 then c1rec.initial_thresholds
          else (c1steps.getD (0 - 1) default).thresholds).getD
          (c1steps.getD 0 default).left_action 0) / SAMPLE_RESOLUTION
      ∧ (c1steps.getD 0 default).right_expected_reward =
        ((if 0 = 0 then c1rec.initial_thresholds
          else (c1steps.getD (0 - 1) default).thresholds).getD
          (c1steps.getD 0 default).right_action 0) / SAMPLE_RESOLUTION
      ∧ (c1steps.getD 0 default).thresholds =
        decayArm
          (decayArm
            (if 0 = 0 then c1rec.initial_thresholds
             else (c1steps.getD (0 - 1) default).thresholds)
            (c1steps.getD 0 default).left_action)
          (c1steps.getD 0 default).right_action)
    ∧ Game.steps c1rec = some c1steps
    ∧ (c1steps.getD 0 default).thresholds.getD 0 0 =
        50 * (97 / 100) * (97 / 100) :=
  steps_read_before_decay_double c1rec c1steps c1rec_steps_eval 0
    (by norm_num [c1steps])

/-- A record whose stored arrays disagree in length: two left actions, one
entry in each other array. -/
def c2rec : GameRecord :=
  { initial_thresholds := [50, 50]
    left_actions := [0, 1]
    right_actions := [0]
    left_rewards := [1]
    right_rewards := [1] }

/-- C2 counterexample: the claim says reconstruction fails whenever the
stored arrays disagree in length, but on `c2rec` (two left actions, one of
everything else) `Game.steps` succeeds — `zip` silently truncates to the
shortest array instead of aborting. -/
theorem steps_mismatched_lengths_counterexample :
    c2rec.left_actions.length ≠ c2rec.right_actions.length ∧
      Game.steps c2rec ≠ none := by decide

/-- C2 (amended): an action index out of `[0, numBandits)` aborts the whole
reconstruction (shown for an index equal to `numBandits = 2`), and a
successful reconstruction only ever emits in-range indices — nothing is
clamped; disagreeing array lengths, however, are not an error: the output
simply has the minimum of the four array lengths. -/
theorem steps_malformed_amended :
    Game.steps
        { initial_thresholds := [50, 50], left_actions := [2],
          right_actions := [0], left_rewards := [1], right_rewards := [1] } =
      none
    ∧ (∀ g L, Game.steps g = some L →
        (∀ d ∈ L, d.left_action < g.initial_thresholds.length ∧
            d.right_action < g.initial_thresholds.length)
        ∧ L.length =
            min (min g.left_actions.length g.right_actions.length)
              (min g.left_rewards.length g.right_rewards.length)) := by
  refine ⟨by decide, fun g L h => ⟨fun d hd => ?_, ?_⟩⟩
  · exact ⟨(stepsAux_mem_inrange h d hd).1, (stepsAux_mem_inrange h d hd).2.1⟩
  · have hlen := stepsAux_length h
    simp only [zipped, List.length_zip] at hlen
    omega

/-- A well-formed one-step record used to instantiate the reward-delta
claim: two arms, left pulls arm 0, right pulls arm 1. -/
def c4rec : GameRecord :=
  { initial_thresholds := [50, 50]
    left_actions := [0]
    right_actions := [1]
    left_rewards := [3]
    right_rewards := [2] }

/-- The trajectory `Game.steps` reconstructs for `c4rec`. -/
def c4steps : List StepRecord :=
  [{ left_action := 0
     right_action := 1
     left_reward := 3
     right_reward := 2
     total_left_reward := 3
     total_right_reward := 2
     left_expected_reward := 1 / 2
     right_expected_reward := 1 / 2
     thresholds := [50 * (97 / 100), 50 * (97 / 100)] }]

/-- `Game.steps` on `c4rec` evaluates to `c4steps`. -/
lemma c4rec_steps_eval : Game.steps c4rec = some c4steps := by
  norm_num [Game.steps, stepsAux, zipped, c4rec, c4steps, decayArm,
    DECAY_RATE, SAMPLE_RESOLUTION, List.get?]

/-- C4: each reconstructed step's reward delta is the successive difference
of the cumulative input array (the first entry itself at step 0), the
reported running totals equal the cumulative input arrays, and the deltas
sum to the last cumulative entry the reconstruction consumed. -/
theorem steps_reward_consistency (g : GameRecord) (L : List StepRecord)
    (hL : Game.steps g = some L) :
    (∀ i, i < L.length →
      (L.getD i default).left_reward =
        g.left_rewards.getD i 0 -
          (if i = 0 then 0 else g.left_rewards.getD (i - 1) 0)
      ∧ (L.getD i default).right_reward =
        g.right_rewards.getD i 0 -
          (if i = 0 then 0 else g.right_rewards.getD (i - 1) 0)
      ∧ (L.getD i default).total_left_reward = g.left_rewards.getD i 0
      ∧ (L.getD i default).total_right_reward = g.right_rewards.getD i 0)
    ∧ (L ≠ [] →
      (L.map (fun d => d.left_reward)).sum =
          g.left_rewards.getD (L.length - 1) 0
      ∧ (L.map (fun d => d.right_reward)).sum =
          g.right_rewards.getD (L.length - 1) 0) := by
  have hlen := stepsAux_length hL
  constructor
  · intro i hi
    have hiz : i < (zipped g).length := by omega
    have hT := stepsAux_totals hL i hi
    have hD := stepsAux_deltas hL i hi
    rw [zipped_getD g i hiz] at hT hD
    by_cases h0 : i = 0
    · subst h0
      simp only [if_pos rfl] at hD ⊢
      exact ⟨by simpa using hD.1, by simpa using hD.2, hT.1, hT.2⟩
    · have hiz' : i - 1 < (zipped g).length := by omega
      rw [zipped_getD g (i - 1) hiz'] at hD
      simp only [if_neg h0] at hD ⊢
      exact ⟨hD.1, hD.2, hT.1, hT.2⟩
  · intro hne
    have hS := stepsAux_sum hL
    have hpos : 0 < L.length := List.length_pos.mpr hne
    have hlast : L.getLast? = some (L.getD (L.length - 1) default) := by
      rw [List.getD_eq_getElem L default (show L.length - 1 < L.length by omega),
        List.getLast?_eq_getElem?,
        List.getElem?_eq_getElem (show L.length - 1 < L.length by omega)]
    rw [hlast] at hS
    simp only [Option.map_some', Option.getD_some] at hS
    have hT := stepsAux_totals hL (L.length - 1) (by omega)
    rw [zipped_getD g (L.length - 1) (by omega)] at hT
    dsimp only at hT
    constructor
    · have h1 := hS.1
      have h2 := hT.1
      omega
    · have h1 := hS.2
      have h2 := hT.2
      omega

/-- Witness for the claim C4 theorem at the concrete record `c4rec` with
trajectory `c4steps`. -/
theorem steps_reward_consistency_witness :
    (∀ i, i < c4steps.length →
      (c4steps.getD i default).left_reward =
        c4rec.left_rewards.getD i 0 -
          (if i = 0 then 0 else c4rec.left_rewards.getD (i - 1) 0)
      ∧ (c4steps.getD i default).right_reward =
        c4rec.right_rewards.getD i 0 -
          (if i = 0 then 0 else c4rec.right_rewards.getD (i - 1) 0)
      ∧ (c4steps.getD i default).total_left_reward =
          c4rec.left_rewards.getD i 0
      ∧ (c4steps.getD i default).total_right_reward =
          c4rec.right_rewards.getD i 0)
    ∧ (c4steps ≠ [] →
      (c4steps.map (fun d => d.left_reward)).sum =
          c4rec.left_rewards.getD (c4steps.length - 1) 0
      ∧ (c4steps.map (fun d => d.right_reward)).sum =
          c4rec.right_rewards.getD (c4steps.length - 1) 0) :=
  steps_reward_consistency c4rec c4steps c4rec_steps_eval

/-- C7: `thresholds_at_the_end` returns the snapshot of the final
reconstructed step, and the unchanged `initial_thresholds` when there are no
steps. -/
theorem thresholds_at_the_end_spec (g : GameRecord) (L : List StepRecord)
    (hL : Game.steps g = some L) :
    (L = [] → Game.thresholds_at_the_end g = some g.initial_thresholds)
    ∧ ∀ dl, L.getLast? = some dl →
        Game.thresholds_at_the_end g = some dl.thresholds := by
  unfold Game.thresholds_at_the_end
  rw [hL]
  constructor
  · rintro rfl
    simp [foldl_last_thresholds]
  · intro dl hdl
    simp [foldl_last_thresholds, hdl]

/-- A zero-step record: non-empty initial thresholds, empty arrays. -/
def c7rec : GameRecord :=
  { initial_thresholds := [10, 20]
    left_actions := []
    right_actions := []
    left_rewards := []
    right_rewards := [] }

/-- Witness for the claim C7 theorem at the zero-step record `c7rec`. -/
theorem thresholds_at_the_end_spec_witness :
    (([] : List StepRecord) = [] →
      Game.thresholds_at_the_end c7rec = some c7rec.initial_thresholds)
    ∧ ∀ dl, ([] : List StepRecord).getLast? = some dl →
        Game.thresholds_at_the_end c7rec = some dl.thresholds :=
  thresholds_at_the_end_spec c7rec [] (by decide)

/-- C8: trajectory reconstruction is deterministic and idempotent: two
records carrying the same five stored arrays reconstruct to identical step
sequences — the computation consumes nothing else (no randomness, no
external state). -/
theorem steps_deterministic (g1 g2 : GameRecord)
    (h0 : g1.initial_thresholds = g2.initial_thresholds)
    (h1 : g1.left_actions = g2.left_actions)
    (h2 : g1.right_actions = g2.right_actions)
    (h3 : g1.left_rewards = g2.left_rewards)
    (h4 : g1.right_rewards = g2.right_rewards) :
    Game.steps g1 = Game.steps g2 := by
  have he : g1 = g2 := by
    cases g1; cases g2; simp_all
  rw [he]

/-- Witness for the claim C8 theorem: the same record literal twice. -/
theorem steps_deterministic_witness :
    Game.steps
        { initial_thresholds := [50, 50], left_actions := [0],
          right_actions := [0], left_rewards := [1], right_rewards := [1] } =
      Game.steps
        { initial_thresholds := [50, 50], left_actions := [0],
          right_actions := [0], left_rewards := [1], right_rewards := [1] } :=
  steps_deterministic _ _ rfl rfl rfl rfl rfl

/-- C10: reconstruction is prefix-stable: truncating the four per-step
arrays to their first `n` entries (same initial thresholds) reconstructs
exactly the first `n` records of the full trajectory. -/
theorem steps_prefix_stable (g : GameRecord) (L : List StepRecord)
    (hL : Game.steps g = some L) (n : Nat) :
    Game.steps (truncateRecord g n) = some (L.take n) := by
  unfold Game.steps at hL ⊢
  have hz : zipped (truncateRecord g n) = (zipped g).take n := by
    simp [zipped, truncateRecord, List.zip_eq_zipWith, ← List.take_zipWith]
  rw [hz]
  show stepsAux g.initial_thresholds 0 0 ((zipped g).take n) = some (L.take n)
  exact stepsAux_take hL

/-- A two-step record (arm 0 has threshold 0, so its snapshots stay put). -/
def c10rec : GameRecord :=
  { initial_thresholds := [0, 50]
    left_actions := [0, 0]
    right_actions := [0, 0]
    left_rewards := [1, 2]
    right_rewards := [0, 0] }

/-- The trajectory `Game.steps` reconstructs for `c10rec`. -/
def c10steps : List StepRecord :=
  [{ left_action := 0
     right_action := 0
     left_reward := 1
     right_reward := 0
     total_left_reward := 1
     total_right_reward := 0
     left_expected_reward := 0
     right_expected_reward := 0
     thresholds := [0, 50] },
   { left_action := 0
     right_action := 0
     left_reward := 1
     right_reward := 0
     total_left_reward := 2
     total_right_reward := 0
     left_expected_reward := 0
     right_expected_reward := 0
     thresholds := [0, 50] }]

/-- `Game.steps` on `c10rec` evaluates to `c10steps`. -/
lemma c10rec_steps_eval : Game.steps c10rec = some c10steps := by
  norm_num [Game.steps, stepsAux, zipped, c10rec, c10steps, decayArm,
    DECAY_RATE, SAMPLE_RESOLUTION, List.get?]

/-- Witness for the claim C10 theorem: the two-step record `c10rec`
truncated to its first step. -/
theorem steps_prefix_stable_witness :
    Game.steps (truncateRecord c10rec 1) = some (c10steps.take 1) :=
  steps_prefix_stable c10rec c10steps c10rec_steps_eval 1

/-- C9: the settled result of a match is determined solely by comparing the
final entries of the cumulative reward arrays: LEFT_WON iff left's final
total is strictly larger, RIGHT_WON iff strictly smaller, DRAW iff equal. -/
theorem run_game_result_spec (g : GameRecord) (l r : Int)
    (hl : g.left_rewards.getLast? = some l)
    (hr : g.right_rewards.getLast? = some r) :
    (run_game_result g = some GameResult.LEFT_WON ↔ r < l)
    ∧ (run_game_result g = some GameResult.RIGHT_WON ↔ l < r)
    ∧ (run_game_result g = some GameResult.DRAW ↔ l = r) := by
  unfold run_game_result
  rw [hl, hr]
  dsimp only
  split_ifs with h1 h2 <;> simp_all <;> omega

/-- A finished record with final totals 3 (left) and 1 (right). -/
def c9rec : GameRecord :=
  { initial_thresholds := [50]
    left_actions := [0]
    right_actions := [0]
    left_rewards := [3]
    right_rewards := [1] }

/-- Witness for the claim C9 theorem at `c9rec` (totals 3 vs 1). -/
theorem run_game_result_spec_witness :
    (run_game_result c9rec = some GameResult.LEFT_WON ↔ (1 : Int) < 3)
    ∧ (run_game_result c9rec = some GameResult.RIGHT_WON ↔ (3 : Int) < 1)
    ∧ (run_game_result c9rec = some GameResult.DRAW ↔ (3 : Int) = 1) :=
  run_game_result_spec c9rec 3 1 (by decide) (by decide)

/-- A pool of two agents, both with uploaded executables, one disabled. -/
def c3agents : List PyAgent :=
  [{ id := 1, enabled := true, hasFile := true },
   { id := 2, enabled := false, hasFile := true }]

/-- C3 counterexample: on `c3agents` the spec's eligible set (`enabled` AND
uploaded executable) has a single member, so the claim mandates failing with
InsufficientAgents — but the command's pool consults only the file field:
it has two members, the guard passes, and the disabled agent's id 2 is in
the pool the draw selects from. -/
theorem scheduler_enabled_counterexample :
    agent_id_list c3agents ≠ spec_eligible_ids c3agents
    ∧ (spec_eligible_ids c3agents).length < 2
    ∧ insufficient_agents c3agents = false
    ∧ 2 ∈ agent_id_list c3agents
    ∧ 2 ∉ spec_eligible_ids c3agents := by decide

/-- C3 (amended): the pool is exactly the agents with an uploaded
executable — the `enabled` flag is not consulted.  Whenever the collected
ids are pairwise distinct (as database primary keys are) and the external
uniform draw hands back two distinct positions, the selected pair consists
of two distinct ids from that pool, and the fewer-than-two-agents guard does
not fire. -/
theorem choice_agents_spec (agents : List PyAgent)
    (hnd : (agent_id_list agents).Nodup)
    (i j : Fin (agent_id_list agents).length) (hij : i ≠ j) :
    (choice_agents_for_game (agent_id_list agents) i j).1 ≠
      (choice_agents_for_game (agent_id_list agents) i j).2
    ∧ (choice_agents_for_game (agent_id_list agents) i j).1 ∈
        agent_id_list agents
    ∧ (choice_agents_for_game (agent_id_list agents) i j).2 ∈
        agent_id_list agents
    ∧ insufficient_agents agents = false := by
  refine ⟨?_, List.get_mem _ _ _, List.get_mem _ _ _, ?_⟩
  · intro hEq
    exact hij (List.nodup_iff_injective_get.mp hnd hEq)
  · have hi := i.isLt
    have hj := j.isLt
    have hne : (i : Nat) ≠ (j : Nat) := fun hv => hij (Fin.ext hv)
    simp only [insufficient_agents, decide_eq_false_iff_not, not_lt]
    omega

/-- Witness for the claim C3 theorem on `c3agents`, positions 0 and 1. -/
theorem choice_agents_spec_witness :
    (choice_agents_for_game (agent_id_list c3agents)
        ⟨0, by decide⟩ ⟨1, by decide⟩).1 ≠
      (choice_agents_for_game (agent_id_list c3agents)
        ⟨0, by decide⟩ ⟨1, by decide⟩).2
    ∧ (choice_agents_for_game (agent_id_list c3agents)
        ⟨0, by decide⟩ ⟨1, by decide⟩).1 ∈ agent_id_list c3agents
    ∧ (choice_agents_for_game (agent_id_list c3agents)
        ⟨0, by decide⟩ ⟨1, by decide⟩).2 ∈ agent_id_list c3agents
    ∧ insufficient_agents c3agents = false :=
  choice_agents_spec c3agents (by decide) ⟨0, by decide⟩ ⟨1, by decide⟩
    (by decide)

/-- C5: the rating update follows `newRatingX = ratingX + k*(sX - eX)` with
`eX = qX/(qA+qB)`, `qX = 10^(ratingX/400)` and actual scores `(1,0)`,
`(0,1)`, `(0.5,0.5)` for LEFT_WON, RIGHT_WON, DRAW respectively; in
particular a DRAW between two 600-rated agents at `k = 32` leaves both
ratings unchanged. -/
theorem find_new_scores_formula (ra rb k : ℝ) :
    (find_new_scores ra rb GameResult.LEFT_WON k =
      some (ra + k * (1 - (10 : ℝ) ^ (ra / 400) /
              ((10 : ℝ) ^ (ra / 400) + (10 : ℝ) ^ (rb / 400))),
            rb + k * (0 - (10 : ℝ) ^ (rb / 400) /
              ((10 : ℝ) ^ (ra / 400) + (10 : ℝ) ^ (rb / 400)))))
    ∧ (find_new_scores ra rb GameResult.RIGHT_WON k =
      some (ra + k * (0 - (10 : ℝ) ^ (ra / 400) /
              ((10 : ℝ) ^ (ra / 400) + (10 : ℝ) ^ (rb / 400))),
            rb + k * (1 - (10 : ℝ) ^ (rb / 400) /
              ((10 : ℝ) ^ (ra / 400) + (10 : ℝ) ^ (rb / 400)))))
    ∧ (find_new_scores ra rb GameResult.DRAW k =
      some (ra + k * ((1 / 2 : ℝ) - (10 : ℝ) ^ (ra / 400) /
              ((10 : ℝ) ^ (ra / 400) + (10 : ℝ) ^ (rb / 400))),
            rb + k * ((1 / 2 : ℝ) - (10 : ℝ) ^ (rb / 400) /
              ((10 : ℝ) ^ (ra / 400) + (10 : ℝ) ^ (rb / 400)))))
    ∧ find_new_scores 600 600 GameResult.DRAW 32 = some (600, 600) := by
  refine ⟨rfl, rfl, rfl, ?_⟩
  have h2 : (10 : ℝ) ^ ((600 : ℝ) / 400) /
      ((10 : ℝ) ^ ((600 : ℝ) / 400) + (10 : ℝ) ^ ((600 : ℝ) / 400)) =
        1 / 2 := by
    have hq : (0 : ℝ) < (10 : ℝ) ^ ((600 : ℝ) / 400) :=
      Real.rpow_pos_of_pos (by norm_num) _
    rw [div_eq_div_iff (by positivity) (by norm_num)]
    ring
  simp [find_new_scores, expected_scores, h2]

/-- C6: the rating update is symmetric under swapping sides together with
the outcome: updating `(ra, rb)` for LEFT_WON gives the component-swap of
updating `(rb, ra)` for RIGHT_WON. -/
theorem find_new_scores_swap (ra rb k : ℝ) :
    find_new_scores ra rb GameResult.LEFT_WON k =
      (find_new_scores rb ra GameResult.RIGHT_WON k).map Prod.swap := by
  simp only [find_new_scores, expected_scores, Option.map_some',
    Prod.swap_prod_mk, Option.some.injEq, Prod.mk.injEq]
  constructor <;> ring

end Santa20
